import Mathlib

/-!
Verification of the RouteWeather planning core against its specification.

The Python source (app.py, routing.py, weather.py) is shallowly embedded:
floats become exact rationals (ℚ), timestamps become rationals on a single
linear scale measured in seconds, fallible code returns `Except`/`Option`,
and the unbounded `while` loop of the waypoint sampler is given an explicit
fuel parameter so that non-termination is observable as `fuelOut`.
External HTTP calls (geocoding, routing, forecast fetch) are modelled by
their observable results, which is how the specification itself treats them.

Python's `round` is round-half-to-even (banker's rounding); it is embedded
exactly below as `pyRoundHalfEven`.  Python's `int()` on a float truncates
toward zero; it is embedded as `pyIntOfRat`.
-/

attribute [local semireducible] Rat.add Rat.mul Rat.inv Rat.sub

/-- Python `round(q)`: nearest integer, ties to even (banker's rounding). -/
def pyRoundHalfEven (q : ℚ) : ℤ :=
  if q - ⌊q⌋ < 1/2 then ⌊q⌋
  else if 1/2 < q - ⌊q⌋ then ⌊q⌋ + 1
  else if ⌊q⌋ % 2 = 0 then ⌊q⌋ else ⌊q⌋ + 1

/-- Python `round(q, 1)` on exact rationals. -/
def pyround1 (q : ℚ) : ℚ := (pyRoundHalfEven (10 * q) : ℚ) / 10

/-- Python `round(q, 4)` on exact rationals. -/
def pyround4 (q : ℚ) : ℚ := (pyRoundHalfEven (10000 * q) : ℚ) / 10000

/-- Python `int()` applied to a float: truncation toward zero. -/
def pyIntOfRat (q : ℚ) : ℤ := if 0 ≤ q then ⌊q⌋ else ⌈q⌉

instance {ε α : Type} [DecidableEq ε] [DecidableEq α] : DecidableEq (Except ε α) := fun a b =>
  match a, b with
  | .ok x, .ok y =>
    if h : x = y then .isTrue (by rw [h]) else .isFalse (by intro hc; cases hc; exact h rfl)
  | .error e, .error f =>
    if h : e = f then .isTrue (by rw [h]) else .isFalse (by intro hc; cases hc; exact h rfl)
  | .ok _, .error _ => .isFalse (by intro hc; cases hc)
  | .error _, .ok _ => .isFalse (by intro hc; cases hc)

/-- Geographic point as (longitude, latitude), from routing.py coordinates. -/
abbrev Pt := ℚ × ℚ

/-- Normalized weather record: the dict built by `_fetch_one` / `_weather_unavailable`
in weather.py.  Keys that are absent in one of the two dict shapes are `Option`s. -/
structure Weather where
  temp_f : Option ℚ
  precip_in_hr : ℚ
  rain_in_hr : ℚ
  showers_in_hr : ℚ
  snowfall_in_hr : ℚ
  cloud_pct : ℚ
  wind_mph : ℚ
  wind_dir : String
  vis_mi : ℚ
  wind_warning : Bool
  precip_type_code : Option ℤ
  weather_code : Option ℤ
  condition : Option String
  precip_type : Option String
  available : Bool
  reason : Option String
deriving DecidableEq, Repr

/-- Waypoint dict from routing.py `sample_waypoints`; later pipeline stages fill
in `arrival` (seconds on the shared time scale) and `weather`.  The display-only
`arrival_str` key is not modelled. -/
structure Waypoint where
  lon : ℚ
  lat : ℚ
  mile : ℚ
  label : String
  arrival : Option ℚ
  weather : Option Weather
deriving DecidableEq, Repr

/-- routing.py `interpolate_point`. -/
def interpolate_point (lon1 lat1 lon2 lat2 frac : ℚ) : ℚ × ℚ :=
  (lon1 + (lon2 - lon1) * frac, lat1 + (lat2 - lat1) * frac)

/-- The waypoint appended by one iteration of the inner `while` loop of
`sample_waypoints` (routing.py lines 138-148). -/
def mkCheckpoint (p c : Pt) (segDist acc next : ℚ) (idx : ℕ) : Waypoint :=
  let frac := (next - acc) / segDist
  let pos := interpolate_point p.1 p.2 c.1 c.2 frac
  { lon := pos.1, lat := pos.2, mile := pyround1 next,
    label := "Checkpoint " ++ toString idx ++ " (Mile " ++ toString (pyRoundHalfEven next) ++ ")",
    arrival := Option.none, weather := Option.none }

/-- The destination waypoint appended unconditionally by `sample_waypoints`
(routing.py lines 153-159). -/
def destinationWaypoint (pt : Pt) (total : ℚ) : Waypoint :=
  { lon := pt.1, lat := pt.2, mile := pyround1 total,
    label := "Destination (Mile " ++ toString (pyRoundHalfEven total) ++ ")",
    arrival := Option.none, weather := Option.none }

/-- Failure modes of the embedded sampler: `divByZero` models Python's
`ZeroDivisionError` in the `frac` computation and `fuelOut` models
non-termination of the `while` loop. -/
inductive SampErr
  | divByZero
  | fuelOut
deriving DecidableEq, Repr

/-- The inner `while next_target <= accumulated + seg_dist` loop of
`sample_waypoints`, with explicit fuel.  State is (waypoints, next_target,
wp_index); `accumulated` is fixed during the inner loop. -/
def sampleInner (interval : ℚ) (p c : Pt) (segDist : ℚ) :
    ℕ → List Waypoint → ℚ → ℚ → ℕ → Except SampErr (List Waypoint × ℚ × ℕ)
  | 0, _, _, _, _ => .error .fuelOut
  | fuel + 1, wps, acc, next, idx =>
    if next ≤ acc + segDist then
      if segDist = 0 then .error .divByZero
      else
        sampleInner interval p c segDist fuel
          (wps ++ [mkCheckpoint p c segDist acc next idx]) acc (next + interval) (idx + 1)
    else .ok (wps, next, idx)

/-- The outer `for i in range(1, len(coords))` loop of `sample_waypoints`:
walks segments, running the inner loop on each and accumulating distance. -/
def sampleSegs (dist : Pt → Pt → ℚ) (interval : ℚ) (fuel : ℕ) :
    Pt → List Pt → List Waypoint → ℚ → ℚ → ℕ → Except SampErr (List Waypoint × ℚ × ℕ)
  | _, [], wps, _, next, idx => .ok (wps, next, idx)
  | prev, c :: rest, wps, acc, next, idx =>
    match sampleInner interval prev c (dist prev c) fuel wps acc next idx with
    | .error e => .error e
    | .ok (wps1, next1, idx1) =>
      sampleSegs dist interval fuel c rest wps1 (acc + dist prev c) next1 idx1

/-- Total length of the route geometry: the sum of the per-segment distances
accumulated by `sample_waypoints`. -/
def segSum (dist : Pt → Pt → ℚ) : Pt → List Pt → ℚ
  | _, [] => 0
  | prev, c :: rest => dist prev c + segSum dist c rest

/-- routing.py `sample_waypoints`.  `dist` abstracts `haversine_mi` (whose
transcendental arithmetic is not representable in ℚ; it is nonnegative and is
0 on coincident points).  The route is `c0 :: rest` (never empty per the spec);
`total` is the separately supplied `total_dist_mi` parameter. -/
def sample_waypoints (dist : Pt → Pt → ℚ) (c0 : Pt) (rest : List Pt)
    (interval total : ℚ) (fuel : ℕ) : Except SampErr (List Waypoint) :=
  match sampleSegs dist interval fuel c0 rest [] 0 interval 1 with
  | .error e => .error e
  | .ok (wps, _, _) =>
    .ok (wps ++ [destinationWaypoint ((c0 :: rest).getLast (List.cons_ne_nil c0 rest)) total])

/-- Number of targets `lo, lo + interval, lo + 2*interval, ...` that are ≤ `hi`
(for positive `interval`); the iteration count of the sampler's `while` loop. -/
def targetsCount (interval lo hi : ℚ) : ℕ :=
  if lo ≤ hi then (⌊(hi - lo) / interval⌋ + 1).toNat else 0

/-- app.py `plan` lines 44-58: the error messages accumulated by input
validation.  Note the source checks only the three text fields. -/
def planValidationErrors (start_addr end_addr depart_str : String) : List String :=
  (if start_addr = "" then ["Starting address is required."] else [])
    ++ (if end_addr = "" then ["Ending address is required."] else [])
    ++ (if depart_str = "" then ["Departure date & time is required."] else [])

/-- app.py `plan`: whether the request reaches the pipeline stages (geocode,
route, sample, estimate, fetch).  `departure_parses` abstracts
`datetime.fromisoformat` succeeding.  The `interval_mi` and `avg_speed` form
values are parsed before validation but are never themselves validated by the
source, which is why they do not occur on the right-hand side. -/
def planProceedsToPipeline (start_addr end_addr depart_str : String)
    (departure_parses : Bool) (interval_mi : ℤ) (avg_speed : ℚ) : Bool :=
  (planValidationErrors start_addr end_addr depart_str).isEmpty && departure_parses

/-- routing.py `estimate_arrival_times`.  Times are rationals in seconds, so
`timedelta(hours=h)` is `h * 3600`.  Division by a zero speed raises
`ZeroDivisionError` in Python, modelled as `.error` (raised at the first
waypoint, hence no error on an empty list). -/
def estimate_arrival_times : List Waypoint → ℚ → ℚ → Except String (List Waypoint)
  | [], _, _ => .ok []
  | wp :: rest, departure, speed =>
    if speed = 0 then .error "ZeroDivisionError: float division by zero"
    else
      match estimate_arrival_times rest departure speed with
      | .error e => .error e
      | .ok out => .ok ({ wp with arrival := some (departure + wp.mile / speed * 3600) } :: out)

/-- One entry of the hourly `time` series handed to `_nearest_hour_index`
(weather.py lines 255-267).  `unparsable` models a string on which
`datetime.fromisoformat` raises `ValueError` (skipped by the scan); `naive`
is a timezone-naive timestamp in seconds; `aware` is a timestamp carrying
explicit zone information, for which Python's subtraction against the naive
target raises `TypeError` — an exception the scan does not catch. -/
inductive TimeEntry
  | unparsable
  | naive (t : ℚ)
  | aware (t : ℚ)
deriving DecidableEq, Repr

/-- Whether a series entry parses to a timezone-aware timestamp. -/
def TimeEntry.isAware : TimeEntry → Bool
  | .aware _ => true
  | _ => false

/-- The scan loop of `_nearest_hour_index`: tracks the best (index, diff) pair,
replacing it only on a strictly smaller difference, skipping unparsable
entries, and raising on aware entries. -/
def nhScan (target : ℚ) : List TimeEntry → ℕ → Option (ℕ × ℚ) → Except String (Option (ℕ × ℚ))
  | [], _, best => .ok best
  | .unparsable :: rest, i, best => nhScan target rest (i + 1) best
  | .aware _ :: _, _, _ =>
    .error "TypeError: cannot subtract offset-naive and offset-aware datetimes"
  | .naive t :: rest, i, best =>
    match best with
    | Option.none => nhScan target rest (i + 1) (some (i, |t - target|))
    | some (bi, bd) =>
      if |t - target| < bd then nhScan target rest (i + 1) (some (i, |t - target|))
      else nhScan target rest (i + 1) (some (bi, bd))

/-- weather.py `_nearest_hour_index`: full scan, then the 12-hour gate
`best_idx if best_diff <= 12 * 3600 else None` (an absent best has infinite
difference, hence `none`). -/
def nearest_hour_index (times : List TimeEntry) (target : ℚ) : Except String (Option ℕ) :=
  match nhScan target times 0 Option.none with
  | .error e => .error e
  | .ok Option.none => .ok Option.none
  | .ok (some (bi, bd)) => if bd ≤ 12 * 3600 then .ok (some bi) else .ok Option.none

/-- A Python value handed to `decode_precipitation_type` as a code:
`null` is `None`; `intv`/`floatv` are numbers (Python `int()` truncates the
float toward zero); `nonconvertible` is any value on which `int()` raises
`TypeError` or `ValueError` (e.g. a non-numeric string). -/
inductive PyCode
  | null
  | intv (n : ℤ)
  | floatv (q : ℚ)
  | nonconvertible
deriving DecidableEq, Repr

/-- Python `int(code)` inside `decode_precipitation_type`: `some` is a
successful conversion, `none` a raised (and caught) exception. -/
def pyIntOfCode : PyCode → Option ℤ
  | .null => Option.none
  | .intv n => some n
  | .floatv q => some (pyIntOfRat q)
  | .nonconvertible => Option.none

/-- weather.py `_PRECIP_TYPE_MAP` with its `.get` default
`(None, f"Type {code}")`. -/
def precipTypeMap (n : ℤ) : Option String × String :=
  if n = 0 then (Option.none, "No precipitation")
  else if n = 1 then (some "rain", "Rain")
  else if n = 3 then (some "freezing_rain", "Freezing rain")
  else if n = 5 then (some "snow", "Snow")
  else if n = 6 then (some "snow", "Wet snow")
  else if n = 7 then (some "sleet", "Rain/snow mix")
  else if n = 8 then (some "sleet", "Ice pellets")
  else if n = 12 then (some "freezing_rain", "Freezing drizzle")
  else (Option.none, "Type " ++ toString n)

/-- weather.py `decode_precipitation_type`: `None` and conversion failures
yield `(None, "Unknown")`; otherwise the table lookup decides. -/
def decode_precipitation_type (code : PyCode) : Option String × String :=
  match code with
  | .null => (Option.none, "Unknown")
  | c =>
    match pyIntOfCode c with
    | Option.none => (Option.none, "Unknown")
    | some n => precipTypeMap n

/-- weather.py `_WMO_LABEL.get`: human label for a WMO weather code. -/
def wmoLabel (n : ℤ) : Option String :=
  if n = 0 then some "Clear sky" else if n = 1 then some "Mainly clear"
  else if n = 2 then some "Partly cloudy" else if n = 3 then some "Overcast"
  else if n = 45 then some "Fog" else if n = 48 then some "Rime fog"
  else if n = 51 then some "Light drizzle" else if n = 53 then some "Moderate drizzle"
  else if n = 55 then some "Dense drizzle" else if n = 56 then some "Light freezing drizzle"
  else if n = 57 then some "Heavy freezing drizzle" else if n = 61 then some "Slight rain"
  else if n = 63 then some "Moderate rain" else if n = 65 then some "Heavy rain"
  else if n = 66 then some "Light freezing rain" else if n = 67 then some "Heavy freezing rain"
  else if n = 71 then some "Slight snow" else if n = 73 then some "Moderate snow"
  else if n = 75 then some "Heavy snow" else if n = 77 then some "Snow grains"
  else if n = 80 then some "Slight showers" else if n = 81 then some "Moderate showers"
  else if n = 82 then some "Heavy showers" else if n = 85 then some "Slight snow showers"
  else if n = 86 then some "Heavy snow showers" else if n = 95 then some "Thunderstorm"
  else if n = 96 then some "Thunderstorm w/ hail" else if n = 99 then some "Thunderstorm w/ hail"
  else Option.none

/-- weather.py `_WMO_PRECIP_TYPE.get`: precipitation-type refinement for a
WMO weather code. -/
def wmoPrecipType (n : ℤ) : Option String :=
  if n = 45 then some "fog" else if n = 48 then some "fog"
  else if n = 80 then some "showers" else if n = 81 then some "showers"
  else if n = 82 then some "showers" else if n = 85 then some "snow_showers"
  else if n = 86 then some "snow_showers" else if n = 95 then some "thunderstorm"
  else if n = 96 then some "thunderstorm" else if n = 99 then some "thunderstorm"
  else Option.none

/-- Python truthiness of an optional string (`None` and `""` are falsy). -/
def truthyStr : Option String → Bool
  | Option.none => false
  | some s => !(s == "")

/-- weather.py `_fetch_one` lines 219-234: the WMO refinement of the primary
decode.  Inputs are the primary result `(pt0, cond0)` and the converted WMO
code; output is the refined `(precip_type, condition)` pair.  `condition` is
`Option String` because the Python variable may be assigned a dict lookup. -/
def refine_with_wmo (pt0 : Option String) (cond0 : Option String) (wmo : Option ℤ) :
    Option String × Option String :=
  match wmo with
  | Option.none => (pt0, cond0)
  | some wi =>
    let ov := wmoPrecipType wi
    let lb := wmoLabel wi
    if ov = some "fog" ∨ ov = some "thunderstorm" then (ov, lb)
    else if pt0 = Option.none ∧ truthyStr ov then (ov, lb)
    else if pt0 = Option.none ∧ truthyStr lb then (pt0, lb)
    else (pt0, cond0)

/-- The full two-stage decode of `_fetch_one`: the `val`-produced float codes
(`Option ℚ`) go through `decode_precipitation_type` and then the WMO
refinement. -/
def decode_refine (ptCode wCode : Option ℚ) : Option String × Option String :=
  let d := decode_precipitation_type
    (match ptCode with | Option.none => PyCode.null | some q => PyCode.floatv q)
  refine_with_wmo d.1 (some d.2) (wCode.map pyIntOfRat)

/-- One cell of an hourly array: `null` is JSON null, `num` a number,
`nonNum` a value on which `float()` raises. -/
inductive PyVal
  | null
  | num (q : ℚ)
  | nonNum
deriving DecidableEq, Repr

/-- weather.py `_fetch_one`'s local `val(key, fallback)`: the array value at
the selected index if present, numeric and non-null, else the fallback. -/
def val (arr : List PyVal) (idx : ℕ) (fallback : Option ℚ) : Option ℚ :=
  match arr.get? idx with
  | some (.num q) => some q
  | some .null => fallback
  | some .nonNum => fallback
  | Option.none => fallback

/-- weather.py `_weather_unavailable`. -/
def weather_unavailable (reason : String) : Weather :=
  { available := false, reason := some reason, temp_f := Option.none,
    precip_in_hr := 0, rain_in_hr := 0, showers_in_hr := 0, snowfall_in_hr := 0,
    cloud_pct := 0, wind_mph := 0, wind_dir := "—", vis_mi := 0,
    wind_warning := false, precip_type_code := Option.none,
    weather_code := Option.none, condition := some "Unavailable",
    precip_type := Option.none }

/-- weather.py `_degrees_to_compass`. -/
def degrees_to_compass (degrees : Option ℚ) : String :=
  match degrees with
  | Option.none => "—"
  | some d =>
    ["N", "NNE", "NE", "ENE", "E", "ESE", "SE", "SSE",
     "S", "SSW", "SW", "WSW", "W", "WNW", "NW", "NNW"].getD
      ((pyRoundHalfEven (d / (45/2))).emod 16).toNat "N"

/-- The parallel hourly arrays of an Open-Meteo response (`data["hourly"]`). -/
structure HourlyData where
  time : List TimeEntry
  temperature_2m : List PyVal
  precipitation : List PyVal
  rain : List PyVal
  showers : List PyVal
  snowfall : List PyVal
  precipitation_type : List PyVal
  weather_code : List PyVal
  cloud_cover : List PyVal
  wind_speed_10m : List PyVal
  wind_direction_10m : List PyVal
  visibility : List PyVal
deriving DecidableEq, Repr

/-- weather.py `_fetch_one` lines 187-252: the record built once an hourly
index has been selected.  `wind_warning_mph` is the externally supplied
threshold. -/
def buildRecord (h : HourlyData) (idx : ℕ) (wind_warning_mph : ℚ) : Weather :=
  let temp_f := val h.temperature_2m idx Option.none
  let precip_total := val h.precipitation idx (some 0)
  let rain_in := val h.rain idx (some 0)
  let showers_in := val h.showers idx (some 0)
  let snowfall_cm := val h.snowfall idx (some 0)
  let precip_type_code := val h.precipitation_type idx Option.none
  let weather_code := val h.weather_code idx Option.none
  let cloud_pct := val h.cloud_cover idx (some 0)
  let wind_mph := val h.wind_speed_10m idx (some 0)
  let wind_deg := val h.wind_direction_10m idx (some 0)
  let vis_m := val h.visibility idx (some 16000)
  let snowfall_in := snowfall_cm.getD 0 * (393701 / 1000000)
  let vis_mi := vis_m.getD 0 / (160934 / 100)
  let decoded := decode_refine precip_type_code weather_code
  { temp_f := temp_f.map pyround1,
    precip_in_hr := pyround4 (precip_total.getD 0),
    rain_in_hr := pyround4 (rain_in.getD 0),
    showers_in_hr := pyround4 (showers_in.getD 0),
    snowfall_in_hr := pyround4 snowfall_in,
    cloud_pct := pyround1 (cloud_pct.getD 0),
    wind_mph := pyround1 (wind_mph.getD 0),
    wind_dir := degrees_to_compass wind_deg,
    vis_mi := pyround1 (min vis_mi 99),
    wind_warning := decide (wind_warning_mph ≤ wind_mph.getD 0),
    precip_type_code := precip_type_code.map pyIntOfRat,
    weather_code := weather_code.map pyIntOfRat,
    condition := decoded.2,
    precip_type := decoded.1,
    available := true,
    reason := Option.none }

/-- weather.py `_fetch_one` after the HTTP call, given the observable response
(status code and optional hourly payload; `none` models a missing or
non-JSON `hourly` key).  A `.error` result models an uncaught exception
propagating out of the worker. -/
def fetch_one (arrival : ℚ) (status : ℕ) (hourly : Option HourlyData)
    (wind_warning_mph : ℚ) : Except String Weather :=
  if status ≠ 200 then
    .ok (weather_unavailable ("Open-Meteo returned HTTP " ++ toString status))
  else
    match hourly with
    | Option.none => .ok (weather_unavailable "No hourly data in Open-Meteo response.")
    | some h =>
      if h.time = [] then .ok (weather_unavailable "Empty time series from Open-Meteo.")
      else
        match nearest_hour_index h.time arrival with
        | .error e => .error e
        | .ok Option.none =>
          .ok (weather_unavailable
            ("Arrival time " ++ toString arrival ++ " is outside the 15-day forecast window."))
        | .ok (some idx) => .ok (buildRecord h idx wind_warning_mph)

/-- One worker of `fetch_weather_for_waypoints`: the per-index outcome `o`
is either a raised exception from the network/JSON phase (`.error`) or the
observable response; any exception escaping `_fetch_one` (including the
scan's `TypeError` and a missing `arrival_dt` key) is caught at
`future.result()` and converted to an unavailable record. -/
def run_fetch (wp : Waypoint) (o : Except String (ℕ × Option HourlyData))
    (wind_warning_mph : ℚ) : Weather :=
  match o with
  | .error e => weather_unavailable e
  | .ok (st, hx) =>
    match wp.arrival with
    | Option.none => weather_unavailable "KeyError: arrival_dt"
    | some arr =>
      match fetch_one arr st hx wind_warning_mph with
      | .error e => weather_unavailable e
      | .ok w => w

/-- Index-tracking helper for the fetch stage: waypoint `i` receives exactly
the outcome `o i` of its own worker. -/
def fetchAux (o : ℕ → Except String (ℕ × Option HourlyData)) (wind_warning_mph : ℚ) :
    ℕ → List Waypoint → List Waypoint
  | _, [] => []
  | i, wp :: rest =>
    { wp with weather := some (run_fetch wp (o i) wind_warning_mph) }
      :: fetchAux o wind_warning_mph (i + 1) rest

/-- weather.py `fetch_weather_for_waypoints`: every waypoint's `weather` slot
is written exactly once, with the result (or caught failure) of that
waypoint's own worker. -/
def fetch_weather_for_waypoints (wps : List Waypoint)
    (o : ℕ → Except String (ℕ × Option HourlyData)) (wind_warning_mph : ℚ) : List Waypoint :=
  fetchAux o wind_warning_mph 0 wps

/-- The block of checkpoints the inner `while` loop emits for one segment:
`m` consecutive targets starting at `next`, spaced `interval` apart. -/
def checkpointRun (p c : Pt) (segDist acc next interval : ℚ) (idx : ℕ) (m : ℕ) : List Waypoint :=
  (List.range m).map
    (fun (j : ℕ) => mkCheckpoint p c segDist acc (next + (j : ℚ) * interval) (idx + j))

/-! Section: Rounding lemmas -/

theorem pyRoundHalfEven_bounds (q : ℚ) :
    ⌊q⌋ ≤ pyRoundHalfEven q ∧ pyRoundHalfEven q ≤ ⌊q⌋ + 1 := by
  unfold pyRoundHalfEven
  split_ifs <;> omega

theorem pyRoundHalfEven_mono {q r : ℚ} (h : q ≤ r) :
    pyRoundHalfEven q ≤ pyRoundHalfEven r := by
  rcases lt_or_ge ⌊q⌋ ⌊r⌋ with hf | hf
  · have h1 := (pyRoundHalfEven_bounds q).2
    have h2 := (pyRoundHalfEven_bounds r).1
    omega
  · have hfe : ⌊q⌋ = ⌊r⌋ := le_antisymm (Int.floor_le_floor h) hf
    unfold pyRoundHalfEven
    rw [hfe]
    split_ifs <;> first | omega | linarith

theorem pyround1_mono {q r : ℚ} (h : q ≤ r) : pyround1 q ≤ pyround1 r := by
  unfold pyround1
  have h1 : pyRoundHalfEven (10 * q) ≤ pyRoundHalfEven (10 * r) :=
    pyRoundHalfEven_mono (by linarith)
  have h2 : (pyRoundHalfEven (10 * q) : ℚ) ≤ (pyRoundHalfEven (10 * r) : ℚ) := by
    exact_mod_cast h1
  linarith

/-! Section: Counting the sampler's targets -/

theorem targetsCount_iff {interval : ℚ} (hI : 0 < interval) (lo hi : ℚ) (j : ℕ) :
    j < targetsCount interval lo hi ↔ lo + j * interval ≤ hi := by
  unfold targetsCount
  split_ifs with hle
  · constructor
    · intro hj
      have hj1 : (j : ℤ) ≤ ⌊(hi - lo) / interval⌋ := by omega
      have hj2 : (j : ℚ) ≤ (hi - lo) / interval := by exact_mod_cast Int.le_floor.1 hj1
      rw [le_div_iff hI] at hj2
      linarith
    · intro hj
      have hj2 : (j : ℚ) ≤ (hi - lo) / interval := by
        rw [le_div_iff hI]; linarith
      have hj1 : (j : ℤ) ≤ ⌊(hi - lo) / interval⌋ := Int.le_floor.2 (by exact_mod_cast hj2)
      omega
  · constructor
    · intro hj; omega
    · intro hj
      exfalso
      have hj0 : (0 : ℚ) ≤ (j : ℚ) * interval :=
        mul_nonneg (by positivity) hI.le
      push_neg at hle
      linarith

theorem nat_eq_of_lt_iff {n m : ℕ} (h : ∀ j, j < n ↔ j < m) : n = m := by
  rcases lt_trichotomy n m with h1 | h1 | h1
  · have := (h n).2 h1; omega
  · exact h1
  · have := (h m).1 h1; omega

theorem targetsCount_floor {interval L : ℚ} (hI : 0 < interval) (hL : 0 ≤ L) :
    targetsCount interval interval L = (⌊L / interval⌋).toNat := by
  apply nat_eq_of_lt_iff
  intro j
  rw [targetsCount_iff hI]
  have hfl : (0 : ℤ) ≤ ⌊L / interval⌋ := Int.floor_nonneg.2 (by positivity)
  constructor
  · intro hj
    have hj2 : ((j : ℚ) + 1) ≤ L / interval := by
      rw [le_div_iff hI]; linarith
    have hj1 : ((j : ℤ) + 1) ≤ ⌊L / interval⌋ := Int.le_floor.2 (by exact_mod_cast hj2)
    omega
  · intro hj
    have hj1 : ((j : ℤ) + 1) ≤ ⌊L / interval⌋ := by omega
    have hj2 : ((j : ℚ) + 1) ≤ L / interval := by exact_mod_cast Int.le_floor.1 hj1
    rw [le_div_iff hI] at hj2
    linarith

theorem targetsCount_add {interval : ℚ} (hI : 0 < interval) (lo hi1 hi2 : ℚ)
    (h12 : hi1 ≤ hi2) :
    targetsCount interval lo hi2 =
      targetsCount interval lo hi1 +
        targetsCount interval (lo + (targetsCount interval lo hi1) * interval) hi2 := by
  set a := targetsCount interval lo hi1 with ha
  apply nat_eq_of_lt_iff
  intro j
  rw [targetsCount_iff hI]
  constructor
  · intro hj
    rcases lt_or_ge j a with hja | hja
    · omega
    · have hj2 : (lo + a * interval) + ((j - a : ℕ) : ℚ) * interval ≤ hi2 := by
        have hc : ((j - a : ℕ) : ℚ) = (j : ℚ) - (a : ℚ) := by
          push_cast [Nat.cast_sub hja]; ring
        rw [hc]; ring_nf; ring_nf at hj; linarith
      have := (targetsCount_iff hI (lo + a * interval) hi2 (j - a)).2 hj2
      omega
  · intro hj
    rcases lt_or_ge j a with hja | hja
    · have := (targetsCount_iff hI lo hi1 j).1 (by omega)
      linarith
    · have hj1 : (j - a : ℕ) < targetsCount interval (lo + a * interval) hi2 := by omega
      have hj2 := (targetsCount_iff hI (lo + a * interval) hi2 (j - a)).1 hj1
      have hc : ((j - a : ℕ) : ℚ) = (j : ℚ) - (a : ℚ) := by
        push_cast [Nat.cast_sub hja]; ring
      rw [hc] at hj2
      linarith


/-! Section: Inner while loop of the sampler -/

theorem checkpointRun_succ (p c : Pt) (segDist acc next interval : ℚ) (idx k : ℕ) :
    checkpointRun p c segDist acc next interval idx (k + 1) =
      mkCheckpoint p c segDist acc next idx ::
        checkpointRun p c segDist acc (next + interval) interval (idx + 1) k := by
  unfold checkpointRun
  rw [List.range_succ_eq_map]
  simp only [List.map_cons, List.map_map]
  congr 1
  · norm_num
  · apply List.map_congr_left
    intro j _
    simp only [Function.comp_apply]
    have h1 : next + ((j + 1 : ℕ) : ℚ) * interval = next + interval + (j : ℚ) * interval := by
      push_cast; ring
    have h2 : idx + (j + 1) = idx + 1 + j := by omega
    rw [Nat.succ_eq_add_one, h1, h2]

theorem sampleInner_eq {interval : ℚ} (p c : Pt) (segDist : ℚ) (hI : 0 < interval) :
    ∀ (fuel : ℕ) (wps : List Waypoint) (acc next : ℚ) (idx : ℕ),
      acc < next →
      targetsCount interval next (acc + segDist) < fuel →
      sampleInner interval p c segDist fuel wps acc next idx =
        .ok (wps ++ checkpointRun p c segDist acc next interval idx
               (targetsCount interval next (acc + segDist)),
             next + (targetsCount interval next (acc + segDist)) * interval,
             idx + targetsCount interval next (acc + segDist)) := by
  intro fuel
  induction fuel with
  | zero => intro wps acc next idx _ hfuel; omega
  | succ f ih =>
    intro wps acc next idx hlt hfuel
    by_cases hg : next ≤ acc + segDist
    · have hm1 : 0 < targetsCount interval next (acc + segDist) := by
        rw [targetsCount_iff hI]; push_cast; linarith
      have hsd : segDist ≠ 0 := by
        intro h0; rw [h0] at hg; linarith
      have hstep : sampleInner interval p c segDist (f + 1) wps acc next idx =
          sampleInner interval p c segDist f
            (wps ++ [mkCheckpoint p c segDist acc next idx]) acc (next + interval) (idx + 1) := by
        simp [sampleInner, hg, hsd]
      set m := targetsCount interval next (acc + segDist) with hm
      have hm' : targetsCount interval (next + interval) (acc + segDist) = m - 1 := by
        apply nat_eq_of_lt_iff
        intro j
        rw [targetsCount_iff hI]
        have hj1 : j < m - 1 ↔ j + 1 < m := by omega
        rw [hj1, hm, targetsCount_iff hI]
        constructor <;> intro hx <;> push_cast at hx ⊢ <;> linarith
      obtain ⟨k, hk⟩ : ∃ k, m = k + 1 := ⟨m - 1, by omega⟩
      rw [hstep, ih _ _ _ _ (by linarith) (by omega), hm', hk]
      simp only [Nat.add_sub_cancel]
      congr 1
      simp only [Prod.mk.injEq]
      refine ⟨?_, ?_, ?_⟩
      · rw [checkpointRun_succ]
        simp [List.append_assoc]
      · push_cast; ring
      · omega
    · have hm0 : targetsCount interval next (acc + segDist) = 0 := by
        by_contra hne
        have := (targetsCount_iff hI next (acc + segDist) 0).1 (by omega)
        push_cast at this
        linarith
      simp [sampleInner, hg, hm0, checkpointRun]

theorem sampleInner_ok_lt {interval : ℚ} (p c : Pt) (segDist : ℚ) :
    ∀ (fuel : ℕ) (wps : List Waypoint) (acc next : ℚ) (idx : ℕ)
      (wps1 : List Waypoint) (next1 : ℚ) (idx1 : ℕ),
      sampleInner interval p c segDist fuel wps acc next idx = .ok (wps1, next1, idx1) →
      acc + segDist < next1 := by
  intro fuel
  induction fuel with
  | zero => intro wps acc next idx wps1 next1 idx1 h; simp [sampleInner] at h
  | succ f ih =>
    intro wps acc next idx wps1 next1 idx1 h
    by_cases hg : next ≤ acc + segDist
    · by_cases hsd : segDist = 0
      · have hg' : next ≤ acc := by rw [hsd] at hg; simpa using hg
        simp [sampleInner, hsd, hg'] at h
      · rw [show sampleInner interval p c segDist (f + 1) wps acc next idx =
            sampleInner interval p c segDist f
              (wps ++ [mkCheckpoint p c segDist acc next idx]) acc (next + interval) (idx + 1)
            from by simp [sampleInner, hg, hsd]] at h
        exact ih _ _ _ _ _ _ _ h
    · simp [sampleInner, hg] at h
      push_neg at hg
      rw [← h.2.1]
      exact hg

theorem sampleInner_ne_div {interval : ℚ} (p c : Pt) (segDist : ℚ) (hI : 0 ≤ interval) :
    ∀ (fuel : ℕ) (wps : List Waypoint) (acc next : ℚ) (idx : ℕ),
      acc < next →
      sampleInner interval p c segDist fuel wps acc next idx ≠ .error .divByZero := by
  intro fuel
  induction fuel with
  | zero => intro wps acc next idx hlt h; simp [sampleInner] at h
  | succ f ih =>
    intro wps acc next idx hlt h
    by_cases hg : next ≤ acc + segDist
    · by_cases hsd : segDist = 0
      · rw [hsd] at hg; linarith
      · rw [show sampleInner interval p c segDist (f + 1) wps acc next idx =
            sampleInner interval p c segDist f
              (wps ++ [mkCheckpoint p c segDist acc next idx]) acc (next + interval) (idx + 1)
            from by simp [sampleInner, hg, hsd]] at h
        exact ih _ _ _ _ (by linarith) h
    · simp [sampleInner, hg] at h

/-! Section: Outer segment loop of the sampler -/

theorem segSum_nonneg (dist : Pt → Pt → ℚ) (hd : ∀ a b, 0 ≤ dist a b) :
    ∀ (prev : Pt) (rest : List Pt), 0 ≤ segSum dist prev rest := by
  intro prev rest
  induction rest generalizing prev with
  | nil => simp [segSum]
  | cons c r ih =>
    simp only [segSum]
    have h1 := hd prev c
    have h2 := ih c
    linarith

theorem checkpointRun_map_mile (p c : Pt) (segDist acc next interval : ℚ) (idx m : ℕ) :
    (checkpointRun p c segDist acc next interval idx m).map Waypoint.mile =
      (List.range m).map (fun (j : ℕ) => pyround1 (next + (j : ℚ) * interval)) := by
  unfold checkpointRun
  rw [List.map_map]
  apply List.map_congr_left
  intro j _
  rfl

theorem checkpointRun_map_label (p c : Pt) (segDist acc next interval : ℚ) (idx m : ℕ) :
    (checkpointRun p c segDist acc next interval idx m).map Waypoint.label =
      (List.range m).map (fun (j : ℕ) => "Checkpoint " ++ toString (idx + j) ++ " (Mile " ++
        toString (pyRoundHalfEven (next + (j : ℚ) * interval)) ++ ")") := by
  unfold checkpointRun
  rw [List.map_map]
  apply List.map_congr_left
  intro j _
  rfl

theorem sampleSegs_eq (dist : Pt → Pt → ℚ) {interval : ℚ} (hI : 0 < interval)
    (hd : ∀ a b, 0 ≤ dist a b) :
    ∀ (rest : List Pt) (prev : Pt) (fuel : ℕ) (wps : List Waypoint) (acc next : ℚ) (idx : ℕ),
      acc < next →
      targetsCount interval next (acc + segSum dist prev rest) < fuel →
      ∃ out,
        sampleSegs dist interval fuel prev rest wps acc next idx =
          .ok (out,
               next + (targetsCount interval next (acc + segSum dist prev rest)) * interval,
               idx + targetsCount interval next (acc + segSum dist prev rest)) ∧
        out.map Waypoint.mile = wps.map Waypoint.mile ++
          (List.range (targetsCount interval next (acc + segSum dist prev rest))).map
            (fun (j : ℕ) => pyround1 (next + (j : ℚ) * interval)) ∧
        out.map Waypoint.label = wps.map Waypoint.label ++
          (List.range (targetsCount interval next (acc + segSum dist prev rest))).map
            (fun (j : ℕ) => "Checkpoint " ++ toString (idx + j) ++ " (Mile " ++
              toString (pyRoundHalfEven (next + (j : ℚ) * interval)) ++ ")") := by
  intro rest
  induction rest with
  | nil =>
    intro prev fuel wps acc next idx hlt _
    have hM0 : targetsCount interval next (acc + segSum dist prev []) = 0 := by
      simp only [segSum, add_zero]
      unfold targetsCount
      rw [if_neg (by linarith)]
    refine ⟨wps, ?_, ?_, ?_⟩
    · simp [sampleSegs, hM0]
    · simp [hM0]
    · simp [hM0]
  | cons c rest ih =>
    intro prev fuel wps acc next idx hlt hfuel
    have hS' : 0 ≤ segSum dist c rest := segSum_nonneg dist hd c rest
    have hd1 : 0 ≤ dist prev c := hd prev c
    set d1 := dist prev c with hd1def
    set S' := segSum dist c rest with hS'def
    have hSc : segSum dist prev (c :: rest) = d1 + S' := by simp [segSum]
    set M := targetsCount interval next (acc + segSum dist prev (c :: rest)) with hM
    set m1 := targetsCount interval next (acc + d1) with hm1
    have hMeq : M = targetsCount interval next (acc + d1 + S') := by
      rw [hM, hSc]; ring_nf
    have hm1M : m1 ≤ M := by
      have hstep : ∀ j, j < m1 → j < M := by
        intro j hj
        have h1 := (targetsCount_iff hI next (acc + d1) j).1 hj
        rw [hMeq]
        exact (targetsCount_iff hI next (acc + d1 + S') j).2 (by linarith)
      by_contra hcon
      push_neg at hcon
      exact absurd (hstep M (by omega)) (lt_irrefl M)
    have hinner := sampleInner_eq prev c d1 hI fuel wps acc next idx hlt (by omega)
    have hlt1 : acc + d1 < next + (m1 : ℚ) * interval := by
      by_contra hc
      push_neg at hc
      exact absurd ((targetsCount_iff hI next (acc + d1) m1).2 hc) (lt_irrefl m1)
    have hsplit : M = m1 + targetsCount interval (next + (m1 : ℚ) * interval) (acc + d1 + S') := by
      rw [hMeq]
      exact targetsCount_add hI next (acc + d1) (acc + d1 + S') (by linarith)
    set M' := targetsCount interval (next + (m1 : ℚ) * interval) (acc + d1 + S') with hM'
    have hfuel1 : M' < fuel := by
      rw [hsplit] at hfuel
      omega
    obtain ⟨out, heq, hmile, hlabel⟩ :=
      ih c fuel (wps ++ checkpointRun prev c d1 acc next interval idx m1)
        (acc + d1) (next + (m1 : ℚ) * interval) (idx + m1) hlt1 hfuel1
    refine ⟨out, ?_, ?_, ?_⟩
    · show sampleSegs dist interval fuel prev (c :: rest) wps acc next idx = _
      simp only [sampleSegs, ← hd1def, hinner]
      rw [heq]
      congr 1
      simp only [Prod.mk.injEq]
      refine ⟨trivial, ?_, ?_⟩
      · rw [show targetsCount interval (next + (m1 : ℚ) * interval) (acc + d1 + S') = M' from rfl]
        rw [hsplit]
        push_cast
        ring
      · rw [show targetsCount interval (next + (m1 : ℚ) * interval) (acc + d1 + S') = M' from rfl]
        omega
    · rw [hmile, List.map_append, checkpointRun_map_mile, List.append_assoc]
      congr 1
      rw [show targetsCount interval (next + (m1 : ℚ) * interval) (acc + d1 + S') = M' from rfl]
      rw [hsplit, List.range_add, List.map_append, List.map_map]
      congr 1
      apply List.map_congr_left
      intro j _
      simp only [Function.comp_apply]
      congr 1
      push_cast
      ring
    · rw [hlabel, List.map_append, checkpointRun_map_label, List.append_assoc]
      congr 1
      rw [show targetsCount interval (next + (m1 : ℚ) * interval) (acc + d1 + S') = M' from rfl]
      rw [hsplit, List.range_add, List.map_append, List.map_map]
      congr 1
      apply List.map_congr_left
      intro j _
      simp only [Function.comp_apply]
      have e1 : idx + (m1 + j) = idx + m1 + j := by omega
      have e2 : next + ((m1 + j : ℕ) : ℚ) * interval
          = next + (m1 : ℚ) * interval + (j : ℚ) * interval := by push_cast; ring
      rw [e1, e2]

/-! Section: Top-level sampler lemmas -/

theorem sample_waypoints_ok (dist : Pt → Pt → ℚ) (c0 : Pt) (rest : List Pt)
    {interval : ℚ} (total : ℚ) (fuel : ℕ) (hI : 0 < interval) (hd : ∀ a b, 0 ≤ dist a b)
    (hf : targetsCount interval interval (segSum dist c0 rest) < fuel) :
    ∃ out, sample_waypoints dist c0 rest interval total fuel = .ok out ∧
      out.map Waypoint.mile =
        (List.range (targetsCount interval interval (segSum dist c0 rest))).map
          (fun (j : ℕ) => pyround1 (interval + (j : ℚ) * interval)) ++ [pyround1 total] ∧
      out.map Waypoint.label =
        (List.range (targetsCount interval interval (segSum dist c0 rest))).map
          (fun (j : ℕ) => "Checkpoint " ++ toString (1 + j) ++ " (Mile " ++
            toString (pyRoundHalfEven (interval + (j : ℚ) * interval)) ++ ")") ++
          ["Destination (Mile " ++ toString (pyRoundHalfEven total) ++ ")"] ∧
      out.getLast? =
        some (destinationWaypoint ((c0 :: rest).getLast (List.cons_ne_nil c0 rest)) total) ∧
      out.length = targetsCount interval interval (segSum dist c0 rest) + 1 := by
  obtain ⟨mid, heq, hmile, hlabel⟩ :=
    sampleSegs_eq dist hI hd rest c0 fuel [] 0 interval 1 hI (by simpa using hf)
  simp only [zero_add] at heq hmile hlabel
  simp only [List.map_nil, List.nil_append] at hmile hlabel
  refine ⟨mid ++ [destinationWaypoint ((c0 :: rest).getLast (List.cons_ne_nil c0 rest)) total],
    ?_, ?_, ?_, ?_, ?_⟩
  · simp only [sample_waypoints, heq]
  · rw [List.map_append, hmile]
    rfl
  · rw [List.map_append, hlabel]
    rfl
  · exact List.getLast?_concat _
  · rw [List.length_append]
    have hlen : mid.length = targetsCount interval interval (segSum dist c0 rest) := by
      have := congrArg List.length hmile
      simpa using this
    simp [hlen]

theorem sampleSegs_ne_div (dist : Pt → Pt → ℚ) {interval : ℚ} (hI : 0 ≤ interval) :
    ∀ (rest : List Pt) (prev : Pt) (fuel : ℕ) (wps : List Waypoint) (acc next : ℚ) (idx : ℕ),
      acc < next →
      sampleSegs dist interval fuel prev rest wps acc next idx ≠ .error .divByZero := by
  intro rest
  induction rest with
  | nil => intro prev fuel wps acc next idx _ h; simp [sampleSegs] at h
  | cons c r ih =>
    intro prev fuel wps acc next idx hlt h
    cases hin : sampleInner interval prev c (dist prev c) fuel wps acc next idx with
    | error e =>
      simp only [sampleSegs, hin] at h
      cases h
      exact sampleInner_ne_div prev c (dist prev c) hI fuel wps acc next idx hlt hin
    | ok res =>
      obtain ⟨wps1, next1, idx1⟩ := res
      have hlt1 : acc + dist prev c < next1 :=
        sampleInner_ok_lt prev c (dist prev c) fuel wps acc next idx wps1 next1 idx1 hin
      simp only [sampleSegs, hin] at h
      exact ih c fuel wps1 (acc + dist prev c) next1 idx1 hlt1 h

theorem sample_waypoints_ne_div (dist : Pt → Pt → ℚ) (c0 : Pt) (rest : List Pt)
    {interval : ℚ} (total : ℚ) (fuel : ℕ) (hI : 0 < interval) :
    sample_waypoints dist c0 rest interval total fuel ≠ .error .divByZero := by
  intro h
  unfold sample_waypoints at h
  cases hseg : sampleSegs dist interval fuel c0 rest [] 0 interval 1 with
  | error e =>
    rw [hseg] at h
    cases h
    exact sampleSegs_ne_div dist hI.le rest c0 fuel [] 0 interval 1 hI hseg
  | ok res =>
    rw [hseg] at h
    simp at h

/-! Section: Arrival time estimator -/

theorem estimate_arrival_times_ok (wps : List Waypoint) (departure : ℚ) {speed : ℚ}
    (hs : speed ≠ 0) :
    estimate_arrival_times wps departure speed =
      .ok (wps.map fun wp => { wp with arrival := some (departure + wp.mile / speed * 3600) }) := by
  induction wps with
  | nil => simp [estimate_arrival_times]
  | cons wp rest ih => simp [estimate_arrival_times, hs, ih]

/-! Section: Nearest-hour scan lemmas -/

theorem nhScan_total (target : ℚ) :
    ∀ (l : List TimeEntry), (∀ e ∈ l, e.isAware = false) →
      ∀ (i0 : ℕ) (best : Option (ℕ × ℚ)), ∃ r, nhScan target l i0 best = .ok r := by
  intro l
  induction l with
  | nil => intro _ i0 best; exact ⟨best, rfl⟩
  | cons e rest ih =>
    intro hna i0 best
    have hrest : ∀ x ∈ rest, x.isAware = false :=
      fun x hx => hna x (List.mem_cons_of_mem _ hx)
    match e with
    | .unparsable => exact ih hrest (i0 + 1) best
    | .aware t =>
      have := hna (.aware t) (List.mem_cons_self _ _)
      simp [TimeEntry.isAware] at this
    | .naive t =>
      match best with
      | Option.none => exact ih hrest (i0 + 1) (some (i0, |t - target|))
      | some (bi, bd) =>
        by_cases hlt : |t - target| < bd
        · simpa [nhScan, hlt] using ih hrest (i0 + 1) (some (i0, |t - target|))
        · simpa [nhScan, hlt] using ih hrest (i0 + 1) (some (bi, bd))

theorem nhScan_some_ne_none (target : ℚ) :
    ∀ (l : List TimeEntry), (∀ e ∈ l, e.isAware = false) →
      ∀ (i0 : ℕ) (p : ℕ × ℚ), nhScan target l i0 (some p) ≠ .ok Option.none := by
  intro l
  induction l with
  | nil => intro _ i0 p h; simp [nhScan] at h
  | cons e rest ih =>
    intro hna i0 p h
    have hrest : ∀ x ∈ rest, x.isAware = false :=
      fun x hx => hna x (List.mem_cons_of_mem _ hx)
    match e with
    | .unparsable => exact ih hrest (i0 + 1) p h
    | .aware t =>
      have := hna (.aware t) (List.mem_cons_self _ _)
      simp [TimeEntry.isAware] at this
    | .naive t =>
      obtain ⟨bi, bd⟩ := p
      by_cases hlt : |t - target| < bd
      · rw [show nhScan target (.naive t :: rest) i0 (some (bi, bd)) =
            nhScan target rest (i0 + 1) (some (i0, |t - target|)) from by simp [nhScan, hlt]] at h
        exact ih hrest (i0 + 1) _ h
      · rw [show nhScan target (.naive t :: rest) i0 (some (bi, bd)) =
            nhScan target rest (i0 + 1) (some (bi, bd)) from by simp [nhScan, hlt]] at h
        exact ih hrest (i0 + 1) _ h

theorem nhScan_best_bound (target : ℚ) :
    ∀ (l : List TimeEntry), (∀ e ∈ l, e.isAware = false) →
      ∀ (i0 : ℕ) (bi : ℕ) (bd : ℚ) (j : ℕ) (d : ℚ),
        nhScan target l i0 (some (bi, bd)) = .ok (some (j, d)) →
        d ≤ bd ∧ (d = bd → j = bi) := by
  intro l
  induction l with
  | nil =>
    intro _ i0 bi bd j d h
    simp only [nhScan, Except.ok.injEq, Option.some.injEq, Prod.mk.injEq] at h
    exact ⟨le_of_eq h.2.symm, fun _ => h.1.symm⟩
  | cons e rest ih =>
    intro hna i0 bi bd j d h
    have hrest : ∀ x ∈ rest, x.isAware = false :=
      fun x hx => hna x (List.mem_cons_of_mem _ hx)
    match e with
    | .unparsable => exact ih hrest (i0 + 1) bi bd j d h
    | .aware t =>
      have := hna (.aware t) (List.mem_cons_self _ _)
      simp [TimeEntry.isAware] at this
    | .naive t =>
      by_cases hlt : |t - target| < bd
      · rw [show nhScan target (.naive t :: rest) i0 (some (bi, bd)) =
            nhScan target rest (i0 + 1) (some (i0, |t - target|)) from by simp [nhScan, hlt]] at h
        obtain ⟨h1, _⟩ := ih hrest (i0 + 1) i0 (|t - target|) j d h
        have hdb : d < bd := lt_of_le_of_lt h1 hlt
        exact ⟨le_of_lt hdb, fun hde => absurd (hde ▸ hdb) (lt_irrefl bd)⟩
      · rw [show nhScan target (.naive t :: rest) i0 (some (bi, bd)) =
            nhScan target rest (i0 + 1) (some (bi, bd)) from by simp [nhScan, hlt]] at h
        exact ih hrest (i0 + 1) bi bd j d h

theorem nhScan_min (target : ℚ) :
    ∀ (l : List TimeEntry), (∀ e ∈ l, e.isAware = false) →
      ∀ (i0 : ℕ) (best : Option (ℕ × ℚ)) (j : ℕ) (d : ℚ),
        nhScan target l i0 best = .ok (some (j, d)) →
        ∀ (k : ℕ) (t : ℚ), l.get? k = some (.naive t) → d ≤ |t - target| := by
  intro l
  induction l with
  | nil => intro _ i0 best j d _ k t hk; simp at hk
  | cons e rest ih =>
    intro hna i0 best j d h k t hk
    have hrest : ∀ x ∈ rest, x.isAware = false :=
      fun x hx => hna x (List.mem_cons_of_mem _ hx)
    match e with
    | .unparsable =>
      cases k with
      | zero => simp at hk
      | succ k' => exact ih hrest (i0 + 1) best j d h k' t (by simpa using hk)
    | .aware t0 =>
      have := hna (.aware t0) (List.mem_cons_self _ _)
      simp [TimeEntry.isAware] at this
    | .naive t0 =>
      cases k with
      | zero =>
        have ht0 : t0 = t := by simpa using hk
        subst ht0
        match best with
        | Option.none =>
          exact (nhScan_best_bound target rest hrest (i0 + 1) i0 (|t0 - target|) j d h).1
        | some (bi, bd) =>
          by_cases hlt : |t0 - target| < bd
          · rw [show nhScan target (.naive t0 :: rest) i0 (some (bi, bd)) =
                nhScan target rest (i0 + 1) (some (i0, |t0 - target|)) from by
                  simp [nhScan, hlt]] at h
            exact (nhScan_best_bound target rest hrest (i0 + 1) i0 (|t0 - target|) j d h).1
          · rw [show nhScan target (.naive t0 :: rest) i0 (some (bi, bd)) =
                nhScan target rest (i0 + 1) (some (bi, bd)) from by simp [nhScan, hlt]] at h
            push_neg at hlt
            exact le_trans (nhScan_best_bound target rest hrest (i0 + 1) bi bd j d h).1 hlt
      | succ k' =>
        have hk' : rest.get? k' = some (.naive t) := by simpa using hk
        match best with
        | Option.none => exact ih hrest (i0 + 1) (some (i0, |t0 - target|)) j d h k' t hk'
        | some (bi, bd) =>
          by_cases hlt : |t0 - target| < bd
          · rw [show nhScan target (.naive t0 :: rest) i0 (some (bi, bd)) =
                nhScan target rest (i0 + 1) (some (i0, |t0 - target|)) from by
                  simp [nhScan, hlt]] at h
            exact ih hrest (i0 + 1) _ j d h k' t hk'
          · rw [show nhScan target (.naive t0 :: rest) i0 (some (bi, bd)) =
                nhScan target rest (i0 + 1) (some (bi, bd)) from by simp [nhScan, hlt]] at h
            exact ih hrest (i0 + 1) _ j d h k' t hk'

theorem nhScan_achieves (target : ℚ) :
    ∀ (l : List TimeEntry), (∀ e ∈ l, e.isAware = false) →
      ∀ (i0 : ℕ) (best : Option (ℕ × ℚ)) (j : ℕ) (d : ℚ),
        nhScan target l i0 best = .ok (some (j, d)) →
        best = some (j, d) ∨
          ∃ (k : ℕ) (t : ℚ), l.get? k = some (.naive t) ∧ j = i0 + k ∧ d = |t - target| := by
  intro l
  induction l with
  | nil =>
    intro _ i0 best j d h
    simp only [nhScan, Except.ok.injEq] at h
    exact Or.inl h
  | cons e rest ih =>
    intro hna i0 best j d h
    have hrest : ∀ x ∈ rest, x.isAware = false :=
      fun x hx => hna x (List.mem_cons_of_mem _ hx)
    match e with
    | .unparsable =>
      rcases ih hrest (i0 + 1) best j d h with hb | ⟨k, t, hk, hj, hd⟩
      · exact Or.inl hb
      · exact Or.inr ⟨k + 1, t, by simpa using hk, by omega, hd⟩
    | .aware t0 =>
      have := hna (.aware t0) (List.mem_cons_self _ _)
      simp [TimeEntry.isAware] at this
    | .naive t0 =>
      have hstep : ∀ (p : ℕ × ℚ),
          nhScan target rest (i0 + 1) (some p) = .ok (some (j, d)) →
          some p = some (j, d) ∨
            ∃ (k : ℕ) (t : ℚ), rest.get? k = some (.naive t) ∧ j = (i0 + 1) + k ∧
              d = |t - target| := fun p hp => ih hrest (i0 + 1) (some p) j d hp
      match best with
      | Option.none =>
        rcases hstep (i0, |t0 - target|) h with hb | ⟨k, t, hk, hj, hd⟩
        · simp only [Option.some.injEq, Prod.mk.injEq] at hb
          exact Or.inr ⟨0, t0, rfl, by omega, hb.2.symm⟩
        · exact Or.inr ⟨k + 1, t, by simpa using hk, by omega, hd⟩
      | some (bi, bd) =>
        by_cases hlt : |t0 - target| < bd
        · rw [show nhScan target (.naive t0 :: rest) i0 (some (bi, bd)) =
              nhScan target rest (i0 + 1) (some (i0, |t0 - target|)) from by
                simp [nhScan, hlt]] at h
          rcases hstep (i0, |t0 - target|) h with hb | ⟨k, t, hk, hj, hd⟩
          · simp only [Option.some.injEq, Prod.mk.injEq] at hb
            exact Or.inr ⟨0, t0, rfl, by omega, hb.2.symm⟩
          · exact Or.inr ⟨k + 1, t, by simpa using hk, by omega, hd⟩
        · rw [show nhScan target (.naive t0 :: rest) i0 (some (bi, bd)) =
              nhScan target rest (i0 + 1) (some (bi, bd)) from by simp [nhScan, hlt]] at h
          rcases hstep (bi, bd) h with hb | ⟨k, t, hk, hj, hd⟩
          · exact Or.inl hb
          · exact Or.inr ⟨k + 1, t, by simpa using hk, by omega, hd⟩

theorem nhScan_first (target : ℚ) :
    ∀ (l : List TimeEntry), (∀ e ∈ l, e.isAware = false) →
      ∀ (i0 : ℕ) (best : Option (ℕ × ℚ)),
        (∀ bi bd, best = some (bi, bd) → bi < i0) →
        ∀ (j : ℕ) (d : ℚ),
          nhScan target l i0 best = .ok (some (j, d)) →
          ∀ (k : ℕ) (t : ℚ), l.get? k = some (.naive t) → i0 + k < j → d < |t - target| := by
  intro l
  induction l with
  | nil => intro _ i0 best _ j d _ k t hk; simp at hk
  | cons e rest ih =>
    intro hna i0 best hb j d h k t hk hlt
    have hrest : ∀ x ∈ rest, x.isAware = false :=
      fun x hx => hna x (List.mem_cons_of_mem _ hx)
    match e with
    | .unparsable =>
      cases k with
      | zero => simp at hk
      | succ k' =>
        exact ih hrest (i0 + 1) best (fun bi bd hbe => by have := hb bi bd hbe; omega)
          j d h k' t (by simpa using hk) (by omega)
    | .aware t0 =>
      have := hna (.aware t0) (List.mem_cons_self _ _)
      simp [TimeEntry.isAware] at this
    | .naive t0 =>
      match best with
      | Option.none =>
        cases k with
        | zero =>
          have ht0 : t0 = t := by simpa using hk
          subst ht0
          obtain ⟨h1, h2⟩ :=
            nhScan_best_bound target rest hrest (i0 + 1) i0 (|t0 - target|) j d h
          rcases lt_or_eq_of_le h1 with hx | hx
          · exact hx
          · exact absurd (h2 hx) (by omega)
        | succ k' =>
          exact ih hrest (i0 + 1) (some (i0, |t0 - target|))
            (fun bi bd hbe => by
              simp only [Option.some.injEq, Prod.mk.injEq] at hbe
              omega)
            j d h k' t (by simpa using hk) (by omega)
      | some (bi, bd) =>
        by_cases hcase : |t0 - target| < bd
        · rw [show nhScan target (.naive t0 :: rest) i0 (some (bi, bd)) =
              nhScan target rest (i0 + 1) (some (i0, |t0 - target|)) from by
                simp [nhScan, hcase]] at h
          cases k with
          | zero =>
            have ht0 : t0 = t := by simpa using hk
            subst ht0
            obtain ⟨h1, h2⟩ :=
              nhScan_best_bound target rest hrest (i0 + 1) i0 (|t0 - target|) j d h
            rcases lt_or_eq_of_le h1 with hx | hx
            · exact hx
            · exact absurd (h2 hx) (by omega)
          | succ k' =>
            exact ih hrest (i0 + 1) (some (i0, |t0 - target|))
              (fun bi' bd' hbe => by
                simp only [Option.some.injEq, Prod.mk.injEq] at hbe
                omega)
              j d h k' t (by simpa using hk) (by omega)
        · rw [show nhScan target (.naive t0 :: rest) i0 (some (bi, bd)) =
              nhScan target rest (i0 + 1) (some (bi, bd)) from by simp [nhScan, hcase]] at h
          have hbi : bi < i0 := hb bi bd rfl
          cases k with
          | zero =>
            have ht0 : t0 = t := by simpa using hk
            subst ht0
            push_neg at hcase
            obtain ⟨h1, h2⟩ := nhScan_best_bound target rest hrest (i0 + 1) bi bd j d h
            rcases lt_or_eq_of_le h1 with hx | hx
            · linarith
            · exact absurd (h2 hx) (by omega)
          | succ k' =>
            exact ih hrest (i0 + 1) (some (bi, bd))
              (fun bi' bd' hbe => by
                simp only [Option.some.injEq, Prod.mk.injEq] at hbe
                omega)
              j d h k' t (by simpa using hk) (by omega)

theorem nhScan_ok_none_iff (target : ℚ) :
    ∀ (l : List TimeEntry), (∀ e ∈ l, e.isAware = false) →
      ∀ (i0 : ℕ),
        (nhScan target l i0 Option.none = .ok Option.none ↔
          ∀ (k : ℕ) (t : ℚ), l.get? k ≠ some (.naive t)) := by
  intro l
  induction l with
  | nil => intro _ i0; simp [nhScan]
  | cons e rest ih =>
    intro hna i0
    have hrest : ∀ x ∈ rest, x.isAware = false :=
      fun x hx => hna x (List.mem_cons_of_mem _ hx)
    match e with
    | .unparsable =>
      rw [show nhScan target (.unparsable :: rest) i0 Option.none =
          nhScan target rest (i0 + 1) Option.none from rfl]
      rw [ih hrest (i0 + 1)]
      constructor
      · intro hall k t hk
        cases k with
        | zero => simp at hk
        | succ k' => exact hall k' t (by simpa using hk)
      · intro hall k t hk
        exact hall (k + 1) t (by simpa using hk)
    | .aware t0 =>
      have := hna (.aware t0) (List.mem_cons_self _ _)
      simp [TimeEntry.isAware] at this
    | .naive t0 =>
      constructor
      · intro h
        exact absurd h (nhScan_some_ne_none target rest hrest (i0 + 1) (i0, |t0 - target|))
      · intro hall
        exact absurd rfl (hall 0 t0)

/-! Section: Fetch stage lemmas -/

theorem fetchAux_length (o : ℕ → Except String (ℕ × Option HourlyData)) (w : ℚ) :
    ∀ (wps : List Waypoint) (n : ℕ), (fetchAux o w n wps).length = wps.length := by
  intro wps
  induction wps with
  | nil => intro n; rfl
  | cons wp rest ih => intro n; simp [fetchAux, ih (n + 1)]

theorem fetchAux_get? (o : ℕ → Except String (ℕ × Option HourlyData)) (w : ℚ) :
    ∀ (wps : List Waypoint) (n i : ℕ),
      (fetchAux o w n wps).get? i =
        (wps.get? i).map (fun wp => { wp with weather := some (run_fetch wp (o (n + i)) w) }) := by
  intro wps
  induction wps with
  | nil => intro n i; simp [fetchAux]
  | cons wp rest ih =>
    intro n i
    cases i with
    | zero => simp [fetchAux]
    | succ i' =>
      simp only [fetchAux, List.get?_cons_succ]
      rw [ih (n + 1) i', show n + (i' + 1) = n + 1 + i' from by omega]

theorem fetch_one_ok_shape (arrival : ℚ) (st : ℕ) (hx : Option HourlyData) (w : ℚ)
    (r : Weather) (h : fetch_one arrival st hx w = .ok r) :
    r.available = true ∨ (r.available = false ∧ ∃ s, r.reason = some s) := by
  unfold fetch_one at h
  by_cases hst : st ≠ 200
  · rw [if_pos hst] at h
    cases h
    exact Or.inr (by simp [weather_unavailable])
  · rw [if_neg hst] at h
    cases hx with
    | none =>
      dsimp only at h
      cases h
      exact Or.inr (by simp [weather_unavailable])
    | some hd =>
      dsimp only at h
      by_cases hemp : hd.time = []
      · rw [if_pos hemp] at h
        cases h
        exact Or.inr (by simp [weather_unavailable])
      · rw [if_neg hemp] at h
        cases hni : nearest_hour_index hd.time arrival with
        | error e => rw [hni] at h; simp at h
        | ok oi =>
          rw [hni] at h
          cases oi with
          | none =>
            dsimp only at h
            cases h
            exact Or.inr (by simp [weather_unavailable])
          | some idx =>
            dsimp only at h
            cases h
            exact Or.inl rfl

theorem run_fetch_shape (wp : Waypoint) (o : Except String (ℕ × Option HourlyData)) (w : ℚ) :
    (run_fetch wp o w).available = true ∨
      ((run_fetch wp o w).available = false ∧ ∃ s, (run_fetch wp o w).reason = some s) := by
  cases o with
  | error e =>
    have he : run_fetch wp (.error e) w = weather_unavailable e := rfl
    rw [he]
    exact Or.inr (by simp [weather_unavailable])
  | ok p =>
    obtain ⟨st, hx⟩ := p
    cases harr : wp.arrival with
    | none =>
      have he : run_fetch wp (.ok (st, hx)) w = weather_unavailable "KeyError: arrival_dt" := by
        unfold run_fetch
        rw [harr]
      rw [he]
      exact Or.inr (by simp [weather_unavailable])
    | some arr =>
      cases hfo : fetch_one arr st hx w with
      | error e =>
        have he : run_fetch wp (.ok (st, hx)) w = weather_unavailable e := by
          unfold run_fetch
          rw [harr]
          dsimp only
          rw [hfo]
        rw [he]
        exact Or.inr (by simp [weather_unavailable])
      | ok r =>
        have he : run_fetch wp (.ok (st, hx)) w = r := by
          unfold run_fetch
          rw [harr]
          dsimp only
          rw [hfo]
        rw [he]
        exact fetch_one_ok_shape arr st hx w r hfo

/-! Section: Claim theorems -/

/-- C10 counterexample: the decoder does not return a placeholder/null result
for every non-integer input.  Python's `int()` truncates the non-integer float
5.7 to the known code 5, so `decode_precipitation_type(5.7)` returns a
populated `precip_type == "snow"` — not a placeholder label with a null
precipType as the claim states for "any non-integer value". -/
theorem decode_nonInteger_counterexample :
    decode_precipitation_type (PyCode.floatv (57/10)) = (some "snow", "Snow") ∧
      (some "snow" : Option String) ≠ Option.none := by
  constructor
  · decide
  · decide

/-- C10 (amended): for a missing code, for any value on which `int()`
conversion raises, and for any integer outside the known code set
{0,1,3,5,6,7,8,12}, the decoder never raises: it returns a null precipType
together with a placeholder label ("Unknown", resp. "Type n").  Non-integer
numeric values are first truncated toward zero by `int()` and decoded by the
resulting integer. -/
theorem decode_placeholder_amended :
    (∀ c : PyCode, pyIntOfCode c = Option.none →
      decode_precipitation_type c = (Option.none, "Unknown")) ∧
    (∀ n : ℤ, n ∉ ([0, 1, 3, 5, 6, 7, 8, 12] : List ℤ) →
      decode_precipitation_type (PyCode.intv n) = (Option.none, "Type " ++ toString n)) := by
  constructor
  · intro c hc
    match c with
    | .null => rfl
    | .intv n => simp [pyIntOfCode] at hc
    | .floatv q => simp [pyIntOfCode] at hc
    | .nonconvertible => rfl
  · intro n hn
    simp only [List.mem_cons, List.not_mem_nil, or_false, not_or] at hn
    obtain ⟨h0, h1, h3, h5, h6, h7, h8, h12⟩ := hn
    simp [decode_precipitation_type, pyIntOfCode, precipTypeMap, h0, h1, h3, h5, h6, h7, h8, h12]

/-- Witness for C10's amended theorem at the concrete inputs `nonconvertible`
(e.g. the string "abc") and the unknown integer code 2. -/
theorem decode_placeholder_witness :
    decode_precipitation_type PyCode.nonconvertible = (Option.none, "Unknown") ∧
      decode_precipitation_type (PyCode.intv 2) = (Option.none, "Type 2") :=
  ⟨decode_placeholder_amended.1 PyCode.nonconvertible rfl,
    decode_placeholder_amended.2 2 (by decide)⟩

/-- C5: in the two-stage decode, (i) a secondary WMO code mapping to fog or
thunderstorm unconditionally overrides the primary result; (ii) a secondary
code mapping to showers/snow-showers fills in when the primary precipType is
null; (iii) a non-null primary precipType is never overridden by a showers or
clear-sky (no-mapping) secondary code; (iv) primary code 5 with any secondary
code not mapping to fog/thunderstorm yields "snow"; (v) primary code 0 with
secondary code 95 yields "thunderstorm". -/
theorem decoder_refinement :
    (∀ (pt0 cond0 : Option String) (wi : ℤ) (s : String),
      wmoPrecipType wi = some s → (s = "fog" ∨ s = "thunderstorm") →
      (refine_with_wmo pt0 cond0 (some wi)).1 = some s) ∧
    (∀ (cond0 : Option String) (wi : ℤ) (s : String),
      wmoPrecipType wi = some s → (s = "showers" ∨ s = "snow_showers") →
      (refine_with_wmo Option.none cond0 (some wi)).1 = some s) ∧
    (∀ (p : String) (cond0 : Option String) (wi : ℤ),
      (wmoPrecipType wi = Option.none ∨ wmoPrecipType wi = some "showers" ∨
        wmoPrecipType wi = some "snow_showers") →
      (refine_with_wmo (some p) cond0 (some wi)).1 = some p) ∧
    (∀ wCode : Option ℚ,
      (∀ wi : ℤ, wCode.map pyIntOfRat = some wi →
        wmoPrecipType wi ≠ some "fog" ∧ wmoPrecipType wi ≠ some "thunderstorm") →
      (decode_refine (some 5) wCode).1 = some "snow") ∧
    (decode_refine (some 0) (some 95)).1 = some "thunderstorm" := by
  refine ⟨?_, ?_, ?_, ?_, ?_⟩
  · intro pt0 cond0 wi s hw hs
    rcases hs with rfl | rfl <;> simp [refine_with_wmo, hw]
  · intro cond0 wi s hw hs
    rcases hs with rfl | rfl <;> simp [refine_with_wmo, hw, truthyStr]
  · intro p cond0 wi hcase
    rcases hcase with h | h | h <;> simp [refine_with_wmo, h]
  · intro wCode hno
    match wCode with
    | Option.none => decide
    | some q =>
      obtain ⟨hf, ht⟩ := hno (pyIntOfRat q) rfl
      have hd : decode_precipitation_type (PyCode.floatv 5) = (some "snow", "Snow") := by decide
      simp only [decode_refine, Option.map_some']
      rw [hd]
      simp [refine_with_wmo, hf, ht]
  · decide

/-- Witness for C5 at concrete codes: secondary 45 (fog) overrides a populated
primary "rain"; secondary 80 (showers) fills a null primary; secondary 0
(clear sky) does not override a populated primary "rain". -/
theorem decoder_refinement_witness :
    (refine_with_wmo (some "rain") (some "Rain") (some 45)).1 = some "fog" ∧
    (refine_with_wmo Option.none (some "No precipitation") (some 80)).1 = some "showers" ∧
    (refine_with_wmo (some "rain") (some "Rain") (some 0)).1 = some "rain" :=
  ⟨decoder_refinement.1 (some "rain") (some "Rain") 45 "fog" (by decide) (Or.inl rfl),
    decoder_refinement.2.1 (some "No precipitation") 80 "showers" (by decide) (Or.inl rfl),
    decoder_refinement.2.2.1 "rain" (some "Rain") 0 (Or.inl (by decide))⟩

/-- C1 counterexample: the scan does not tolerate every timestamp string.  A
series entry that parses to a timezone-aware timestamp (e.g.
"2024-01-01T01:00+00:00") makes Python's subtraction against the naive target
raise `TypeError`, which `_nearest_hour_index` does not catch — the scan
aborts instead of returning the within-12-hours index 0 the claim requires. -/
theorem nearest_hour_aware_counterexample :
    nearest_hour_index [TimeEntry.aware 3600] 3600 =
      .error "TypeError: cannot subtract offset-naive and offset-aware datetimes" ∧
    nearest_hour_index [TimeEntry.aware 3600] 3600 ≠ .ok (some 0) ∧
    nearest_hour_index [TimeEntry.aware 3600] 3600 ≠ .ok Option.none := by
  refine ⟨rfl, ?_, ?_⟩ <;> intro h <;> simp [nearest_hour_index, nhScan] at h

/-- C1 (amended): provided every parsable series entry is timezone-naive (as
Open-Meteo's `timezone=UTC` series is), `_nearest_hour_index` reports
not-found exactly when every parsable entry differs from the target by more
than 12 hours (in particular when no entry is parsable), and otherwise
returns the first index in scan order achieving the minimal absolute
difference, skipping unparsable entries; a timezone-aware entry instead
aborts the scan with a `TypeError`. -/
theorem nearest_hour_spec (times : List TimeEntry) (target : ℚ)
    (hna : ∀ e ∈ times, e.isAware = false) :
    (nearest_hour_index times target = .ok Option.none ↔
      ∀ (k : ℕ) (t : ℚ), times.get? k = some (.naive t) → 12 * 3600 < |t - target|) ∧
    (∀ i : ℕ, nearest_hour_index times target = .ok (some i) →
      ∃ t : ℚ, times.get? i = some (.naive t) ∧ |t - target| ≤ 12 * 3600 ∧
        (∀ (k : ℕ) (u : ℚ), times.get? k = some (.naive u) → |t - target| ≤ |u - target|) ∧
        (∀ (k : ℕ) (u : ℚ), times.get? k = some (.naive u) → k < i →
          |t - target| < |u - target|)) := by
  obtain ⟨r, hr⟩ := nhScan_total target times hna 0 Option.none
  rcases r with _ | ⟨bi, bd⟩
  · have hnone := (nhScan_ok_none_iff target times hna 0).1 hr
    have hni : nearest_hour_index times target = .ok Option.none := by
      unfold nearest_hour_index
      rw [hr]
    constructor
    · rw [hni]
      constructor
      · intro _ k t hk
        exact absurd hk (hnone k t)
      · intro _
        rfl
    · intro i h
      rw [hni] at h
      simp at h
  · have hni : nearest_hour_index times target =
        (if bd ≤ 12 * 3600 then .ok (some bi) else .ok Option.none) := by
      unfold nearest_hour_index
      rw [hr]
    rcases nhScan_achieves target times hna 0 Option.none bi bd hr with hb | ⟨k, t, hk, hj, hd⟩
    · simp at hb
    · have hbik : bi = k := by omega
      subst hbik
      constructor
      · constructor
        · intro h k1 t1 hk1
          rw [hni] at h
          by_cases hbd : bd ≤ 12 * 3600
          · rw [if_pos hbd] at h
            simp at h
          · push_neg at hbd
            have hmin := nhScan_min target times hna 0 Option.none bi bd hr k1 t1 hk1
            linarith
        · intro hall
          have hgt : 12 * 3600 < bd := by
            rw [hd]
            exact hall bi t hk
          rw [hni, if_neg (not_le.2 hgt)]
      · intro i h
        rw [hni] at h
        by_cases hbd : bd ≤ 12 * 3600
        · rw [if_pos hbd] at h
          have hbi : bi = i := by simpa using h
          subst hbi
          refine ⟨t, hk, by rw [← hd]; exact hbd, ?_, ?_⟩
          · intro k1 u hk1
            have hmin := nhScan_min target times hna 0 Option.none bi bd hr k1 u hk1
            rw [← hd]
            exact hmin
          · intro k1 u hk1 hki
            have hfirst := nhScan_first target times hna 0 Option.none
              (by intro bi1 bd1 hh; simp at hh) bi bd hr k1 u hk1 (by omega)
            rw [← hd]
            exact hfirst
        · rw [if_neg hbd] at h
          simp at h

/-- Witness for C1's amended theorem: a concrete series with an unparsable
entry and a tie ([naive 0, unparsable, naive 7200], target 3600) selects the
earlier-encountered index 0. -/
theorem nearest_hour_spec_witness :
    nearest_hour_index [TimeEntry.naive 0, TimeEntry.unparsable, TimeEntry.naive 7200] 3600 =
      .ok (some 0) := by
  have h := nearest_hour_spec [TimeEntry.naive 0, TimeEntry.unparsable, TimeEntry.naive 7200]
    3600 (by decide)
  decide

/-- C3 (code bug): a request with non-positive intervalMiles or avgSpeedMph is
NOT rejected — `plan` validates only the two addresses and the departure
string, so a form with interval 0 and speed 0 passes validation and reaches
the pipeline; `sample_waypoints` then never terminates on any route whose
first segment has positive length (the `while` loop's target never advances),
and `estimate_arrival_times` raises `ZeroDivisionError` at the first waypoint
for speed 0.  The spec's stated intent ("reject, do not loop infinitely") is
violated by the code. -/
theorem plan_missing_interval_speed_validation :
    planProceedsToPipeline "A" "B" "2024-01-01T08:00" true 0 0 = true ∧
    (∀ fuel : ℕ,
      sample_waypoints (fun _ _ => 1) (0, 0) [(0, 1)] 0 100 fuel = .error .fuelOut) ∧
    estimate_arrival_times
      [{ lon := 0, lat := 0, mile := 50, label := "Checkpoint 1 (Mile 50)",
         arrival := Option.none, weather := Option.none }] 0 0 =
      .error "ZeroDivisionError: float division by zero" := by
  refine ⟨rfl, ?_, by decide⟩
  have key : ∀ (fuel : ℕ) (wps : List Waypoint) (idx : ℕ),
      sampleInner (0 : ℚ) (0, 0) (0, 1) 1 fuel wps 0 0 idx = .error .fuelOut := by
    intro fuel
    induction fuel with
    | zero => intro wps idx; rfl
    | succ f ih =>
      intro wps idx
      have h1 : sampleInner (0 : ℚ) (0, 0) (0, 1) 1 (f + 1) wps 0 0 idx =
          sampleInner (0 : ℚ) (0, 0) (0, 1) 1 f
            (wps ++ [mkCheckpoint (0, 0) (0, 1) 1 0 0 idx]) 0 (0 + 0) (idx + 1) := by
        simp [sampleInner]
      rw [h1, show (0 : ℚ) + 0 = 0 from by norm_num]
      exact ih _ _
  intro fuel
  have h2 : sampleSegs (fun _ _ => (1 : ℚ)) 0 fuel (0, 0) [(0, 1)] [] 0 0 1 =
      .error .fuelOut := by
    simp only [sampleSegs, key fuel [] 1]
  simp only [sample_waypoints, h2]

/-- C2 counterexample: the number of interval waypoints is not
`floor(totalDistanceMiles / intervalMiles)`.  `total_dist_mi` is a separate
parameter used only for the destination label; the loop counts targets
against the accumulated geometry length.  On the degenerate route
[(0,0),(0,0)] (haversine length 0 — `haversine_mi` is exactly 0 on coincident
points) with interval 50 and totalDistanceMiles 100, the sampler emits 0
interval waypoints plus the destination, not floor(100/50) = 2 plus the
destination. -/
theorem sampler_count_counterexample :
    sample_waypoints (fun _ _ => 0) (0, 0) [(0, 0)] 50 100 5 =
      .ok [destinationWaypoint (0, 0) 100] ∧
    (⌊(100 : ℚ) / 50⌋).toNat = 2 ∧
    [destinationWaypoint (0, 0) 100].length ≠ 2 + 1 := by
  refine ⟨by decide, by decide, by decide⟩

/-- C2 (amended): for positive intervalMiles and any nonnegative segment
metric, the sampler emits exactly `floor(L / intervalMiles)` interval
waypoints where `L` is the accumulated geometry length (`segSum`) — which
equals `floor(totalDistanceMiles / intervalMiles)` exactly when the
`totalDistanceMiles` parameter is that accumulated length — in strictly
increasing distance-along-route order (the k-th checkpoint records the target
distance (k+1)·interval), followed by exactly one unconditionally appended
destination waypoint, even when it coincides with the last sample. -/
theorem sampler_count_and_order (dist : Pt → Pt → ℚ) (c0 : Pt) (rest : List Pt)
    (interval total : ℚ) (fuel : ℕ) (hI : 0 < interval) (hd : ∀ a b, 0 ≤ dist a b)
    (hf : targetsCount interval interval (segSum dist c0 rest) < fuel) :
    ∃ out, sample_waypoints dist c0 rest interval total fuel = .ok out ∧
      out.length = (⌊segSum dist c0 rest / interval⌋).toNat + 1 ∧
      out.map Waypoint.mile =
        (List.range (⌊segSum dist c0 rest / interval⌋).toNat).map
          (fun (j : ℕ) => pyround1 (((j : ℚ) + 1) * interval)) ++ [pyround1 total] ∧
      out.getLast? =
        some (destinationWaypoint ((c0 :: rest).getLast (List.cons_ne_nil c0 rest)) total) := by
  obtain ⟨out, h1, h2, h3, h4, h5⟩ := sample_waypoints_ok dist c0 rest total fuel hI hd hf
  have hL : 0 ≤ segSum dist c0 rest := segSum_nonneg dist hd c0 rest
  have hN := targetsCount_floor hI hL
  refine ⟨out, h1, ?_, ?_, h4⟩
  · rw [h5, hN]
  · rw [h2, hN]
    congr 1
    apply List.map_congr_left
    intro j _
    congr 1
    push_cast
    ring

/-- Witness for C2's amended theorem: route of segment length 3, interval 2,
total parameter 3 — one interval waypoint plus the destination. -/
theorem sampler_count_and_order_witness :
    ∃ out, sample_waypoints (fun _ _ => 3) ((0 : ℚ), (0 : ℚ)) [((0 : ℚ), (1 : ℚ))] 2 3 5 =
      .ok out ∧ out.length = 2 := by
  obtain ⟨out, h1, h2, _⟩ := sampler_count_and_order (fun _ _ => 3) (0, 0) [(0, 1)] 2 3 5
    (by norm_num) (fun a b => by norm_num) (by decide)
  refine ⟨out, h1, ?_⟩
  rw [h2]
  decide

/-- C4 counterexample: the final waypoint's stored distance does not equal
`totalDistanceMiles` — the source stores `round(total_dist_mi, 1)`.  For
totalDistanceMiles = 0.25 (route [(0,0),(0,0)], zero haversine length), the
destination's `mile` field is 0.2 (Python banker's rounding), not 0.25. -/
theorem waypoint_distance_counterexample :
    sample_waypoints (fun _ _ => 0) (0, 0) [(0, 0)] 50 (1/4) 1 =
      .ok [destinationWaypoint (0, 0) (1/4)] ∧
    (destinationWaypoint (0, 0) (1/4)).mile = 1/5 ∧
    (1/5 : ℚ) ≠ 1/4 := by
  refine ⟨by decide, by decide, by decide⟩

/-- C4 (amended): for positive intervalMiles, a nonnegative segment metric and
a `totalDistanceMiles` parameter at least the accumulated geometry length (as
holds when it is that length), the stored `mile` field is monotonically
non-decreasing across the emitted sequence, and the final (destination)
waypoint's `mile` equals `totalDistanceMiles` rounded to one decimal with
Python's banker's rounding. -/
theorem waypoint_distance_monotone (dist : Pt → Pt → ℚ) (c0 : Pt) (rest : List Pt)
    (interval total : ℚ) (fuel : ℕ) (hI : 0 < interval) (hd : ∀ a b, 0 ≤ dist a b)
    (htot : segSum dist c0 rest ≤ total)
    (hf : targetsCount interval interval (segSum dist c0 rest) < fuel) :
    ∃ out, sample_waypoints dist c0 rest interval total fuel = .ok out ∧
      List.Chain' (· ≤ ·) (out.map Waypoint.mile) ∧
      (out.map Waypoint.mile).getLast? = some (pyround1 total) := by
  obtain ⟨out, h1, h2, h3, h4, h5⟩ := sample_waypoints_ok dist c0 rest total fuel hI hd hf
  refine ⟨out, h1, ?_, ?_⟩
  · rw [h2]
    rw [List.chain'_append]
    refine ⟨?_, List.chain'_singleton _, ?_⟩
    · rw [List.chain'_map, List.chain'_iff_get]
      intro i hi
      simp only [List.get_range]
      apply pyround1_mono
      have hii : (i : ℚ) * interval ≤ ((i : ℚ) + 1) * interval := by nlinarith [hI.le]
      push_cast
      linarith
    · intro x hx y hy
      obtain ⟨hne, hxe⟩ := List.mem_getLast?_eq_getLast hx
      have hxmem : x ∈ (List.range (targetsCount interval interval (segSum dist c0 rest))).map
          (fun (j : ℕ) => pyround1 (interval + (j : ℚ) * interval)) := by
        rw [hxe]
        exact List.getLast_mem hne
      obtain ⟨j, hjmem, hfx⟩ := List.mem_map.1 hxmem
      have hj : j < targetsCount interval interval (segSum dist c0 rest) :=
        List.mem_range.1 hjmem
      have hy1 : pyround1 total = y := by simpa using hy
      rw [← hfx, ← hy1]
      apply pyround1_mono
      have hchar := (targetsCount_iff hI interval (segSum dist c0 rest) j).1 hj
      linarith
  · rw [h2]
    exact List.getLast?_concat _

/-- Witness for C4's amended theorem: segment length 3, interval 2, total 4 —
miles [2, 4], non-decreasing, last equals round(4, 1) = 4. -/
theorem waypoint_distance_monotone_witness :
    ∃ out, sample_waypoints (fun _ _ => 3) ((0 : ℚ), (0 : ℚ)) [((0 : ℚ), (1 : ℚ))] 2 4 5 =
      .ok out ∧
      List.Chain' (· ≤ ·) (out.map Waypoint.mile) ∧
      (out.map Waypoint.mile).getLast? = some 4 := by
  obtain ⟨out, h1, h2, h3⟩ := waypoint_distance_monotone (fun _ _ => 3) (0, 0) [(0, 1)] 2 4 5
    (by norm_num) (fun a b => by norm_num) (by decide) (by decide)
  refine ⟨out, h1, h2, ?_⟩
  rw [h3]
  decide

/-- C7: for every route with at least two points, positive intervalMiles and a
nonnegative segment metric, the sampler never evaluates the interpolation
fraction with a zero segment length (no division by zero, at any fuel), and a
route all of whose segments have zero length (`segSum = 0`) yields only the
destination waypoint. -/
theorem sampler_division_safety (dist : Pt → Pt → ℚ) (c0 : Pt) (rest : List Pt)
    (interval total : ℚ) (hI : 0 < interval) (hd : ∀ a b, 0 ≤ dist a b) :
    (∀ fuel : ℕ, sample_waypoints dist c0 rest interval total fuel ≠ .error .divByZero) ∧
    (segSum dist c0 rest = 0 → ∀ fuel : ℕ, 0 < fuel →
      sample_waypoints dist c0 rest interval total fuel =
        .ok [destinationWaypoint ((c0 :: rest).getLast (List.cons_ne_nil c0 rest)) total]) := by
  constructor
  · intro fuel
    exact sample_waypoints_ne_div dist c0 rest total fuel hI
  · intro hz fuel hfuel
    have hN : targetsCount interval interval (segSum dist c0 rest) = 0 := by
      rw [hz]
      unfold targetsCount
      rw [if_neg (by linarith)]
    obtain ⟨out, h1, h2, h3, h4, h5⟩ :=
      sample_waypoints_ok dist c0 rest total fuel hI hd (by rw [hN]; exact hfuel)
    rw [hN] at h5
    rcases out with _ | ⟨x, xs⟩
    · simp at h5
    · rcases xs with _ | ⟨y, ys⟩
      · have hx : x = destinationWaypoint ((c0 :: rest).getLast (List.cons_ne_nil c0 rest))
            total := by simpa using h4
        rw [h1, hx]
      · simp at h5

/-- Witness for C7 at a concrete degenerate route [(0,0),(0,0)] (zero-length
segment), interval 7, total parameter 9. -/
theorem sampler_division_safety_witness :
    sample_waypoints (fun _ _ => 0) ((0 : ℚ), (0 : ℚ)) [((0 : ℚ), (0 : ℚ))] 7 9 3 ≠
      .error .divByZero ∧
    sample_waypoints (fun _ _ => 0) ((0 : ℚ), (0 : ℚ)) [((0 : ℚ), (0 : ℚ))] 7 9 3 =
      .ok [destinationWaypoint (0, 0) 9] := by
  have h := sampler_division_safety (fun _ _ => 0) (0, 0) [(0, 0)] 7 9 (by norm_num)
    (fun a b => le_refl 0)
  exact ⟨h.1 3, h.2 (by decide) 3 (by norm_num)⟩

/-- C6: for every waypoint list, departure time and positive avgSpeedMph, the
estimator sets each waypoint's arrival independently to
departureTime + (mile / speed) hours (times in seconds, 1 h = 3600 s),
preserving input order (it is a map); doubling the speed halves every
waypoint's elapsed time. -/
theorem arrival_time_formula (wps : List Waypoint) (departure : ℚ) (speed : ℚ)
    (hs : 0 < speed) :
    estimate_arrival_times wps departure speed =
      .ok (wps.map fun wp => { wp with arrival := some (departure + wp.mile / speed * 3600) }) ∧
    estimate_arrival_times wps departure (2 * speed) =
      .ok (wps.map fun wp =>
        { wp with arrival := some (departure + wp.mile / speed * 3600 / 2) }) := by
  constructor
  · exact estimate_arrival_times_ok wps departure hs.ne'
  · rw [estimate_arrival_times_ok wps departure (mul_pos two_pos hs).ne']
    congr 1
    apply List.map_congr_left
    intro wp _
    have harr : wp.mile / (2 * speed) * 3600 = wp.mile / speed * 3600 / 2 := by
      rw [mul_comm (2 : ℚ) speed, ← div_div]
      ring
    rw [harr]

/-- Witness for C6: one waypoint at mile 60, departure 0, speed 30 mph —
arrival 7200 s; at speed 60 the elapsed time halves to 3600 s. -/
theorem arrival_time_formula_witness :
    estimate_arrival_times
        [{ lon := 0, lat := 0, mile := 60, label := "Checkpoint 1 (Mile 60)",
           arrival := Option.none, weather := Option.none }] 0 30 =
      .ok [{ lon := 0, lat := 0, mile := 60, label := "Checkpoint 1 (Mile 60)",
             arrival := some 7200, weather := Option.none }] ∧
    estimate_arrival_times
        [{ lon := 0, lat := 0, mile := 60, label := "Checkpoint 1 (Mile 60)",
           arrival := Option.none, weather := Option.none }] 0 (2 * 30) =
      .ok [{ lon := 0, lat := 0, mile := 60, label := "Checkpoint 1 (Mile 60)",
             arrival := some 3600, weather := Option.none }] := by
  have h := arrival_time_formula
    [{ lon := 0, lat := 0, mile := 60, label := "Checkpoint 1 (Mile 60)",
       arrival := Option.none, weather := Option.none }] 0 30 (by norm_num)
  constructor
  · rw [h.1]
    decide
  · rw [h.2]
    decide

/-- C8: after the fetch stage, the list keeps its length, waypoint i's
`weather` slot is written exactly once with the value determined solely by its
own worker's outcome `o i` (so one worker's failure cannot affect a sibling's
record), and every resulting record is either available with `available =
true` or an explicit unavailable record carrying a reason string. -/
theorem fetch_stage_invariant (wps : List Waypoint)
    (o : ℕ → Except String (ℕ × Option HourlyData)) (w : ℚ) :
    (fetch_weather_for_waypoints wps o w).length = wps.length ∧
    (∀ i : ℕ, (fetch_weather_for_waypoints wps o w).get? i =
      (wps.get? i).map (fun wp => { wp with weather := some (run_fetch wp (o i) w) })) ∧
    (∀ (wp : Waypoint) (oc : Except String (ℕ × Option HourlyData)),
      (run_fetch wp oc w).available = true ∨
        ((run_fetch wp oc w).available = false ∧ ∃ s, (run_fetch wp oc w).reason = some s)) := by
  refine ⟨fetchAux_length o w wps 0, ?_, fun wp oc => run_fetch_shape wp oc w⟩
  intro i
  have h := fetchAux_get? o w wps 0 i
  simpa using h

/-- C9: when the temperature array is null at the selected index, `_fetch_one`
still produces an available record (`available = true`) with `temp_f = None`;
the other fields do not depend on the temperature array at all, and a null at
the selected index of any rate/percentage array yields the documented default
0.0 while a null visibility yields the neutral default 16000 m, i.e. a
displayed 9.9 mi. -/
theorem null_temperature_handling (arrival : ℚ) (h : HourlyData) (w : ℚ) (idx : ℕ)
    (hne : h.time ≠ [])
    (hsel : nearest_hour_index h.time arrival = .ok (some idx))
    (htemp : h.temperature_2m.get? idx = some PyVal.null) :
    ∃ r, fetch_one arrival 200 (some h) w = .ok r ∧ r.available = true ∧
      r.temp_f = Option.none ∧
      (∀ tarr : List PyVal,
        fetch_one arrival 200 (some { h with temperature_2m := tarr }) w =
          .ok { r with temp_f := (val tarr idx Option.none).map pyround1 }) ∧
      (h.precipitation.get? idx = some PyVal.null → r.precip_in_hr = 0) ∧
      (h.rain.get? idx = some PyVal.null → r.rain_in_hr = 0) ∧
      (h.showers.get? idx = some PyVal.null → r.showers_in_hr = 0) ∧
      (h.snowfall.get? idx = some PyVal.null → r.snowfall_in_hr = 0) ∧
      (h.cloud_cover.get? idx = some PyVal.null → r.cloud_pct = 0) ∧
      (h.wind_speed_10m.get? idx = some PyVal.null → r.wind_mph = 0) ∧
      (h.visibility.get? idx = some PyVal.null → r.vis_mi = 99/10) := by
  have hbr : ∀ hh : HourlyData, hh.time = h.time →
      fetch_one arrival 200 (some hh) w = .ok (buildRecord hh idx w) := by
    intro hh hhtime
    unfold fetch_one
    rw [if_neg (by norm_num)]
    dsimp only
    rw [hhtime, if_neg hne, hsel]
  refine ⟨buildRecord h idx w, hbr h rfl, rfl, ?_, ?_, ?_, ?_, ?_, ?_, ?_, ?_, ?_⟩
  · simp only [List.get?_eq_getElem?] at htemp
    simp [buildRecord, val, htemp]
  · intro tarr
    rw [hbr { h with temperature_2m := tarr } rfl]
    rfl
  all_goals
    intro hp
    simp only [List.get?_eq_getElem?] at hp
    simp [buildRecord, val, hp]
    try decide

/-- Witness for C9 at a concrete one-hour series with every array null at the
selected index 0. -/
theorem null_temperature_handling_witness :
    ∃ r, fetch_one 0 200 (some
      { time := [TimeEntry.naive 0], temperature_2m := [PyVal.null],
        precipitation := [PyVal.null], rain := [PyVal.null], showers := [PyVal.null],
        snowfall := [PyVal.null], precipitation_type := [PyVal.null],
        weather_code := [PyVal.null], cloud_cover := [PyVal.null],
        wind_speed_10m := [PyVal.null], wind_direction_10m := [PyVal.null],
        visibility := [PyVal.null] }) 40 = .ok r ∧
      r.available = true ∧ r.temp_f = Option.none ∧ r.vis_mi = 99/10 := by
  obtain ⟨r, h1, h2, h3, _, _, _, _, _, _, _, hvis⟩ := null_temperature_handling 0
    { time := [TimeEntry.naive 0], temperature_2m := [PyVal.null],
      precipitation := [PyVal.null], rain := [PyVal.null], showers := [PyVal.null],
      snowfall := [PyVal.null], precipitation_type := [PyVal.null],
      weather_code := [PyVal.null], cloud_cover := [PyVal.null],
      wind_speed_10m := [PyVal.null], wind_direction_10m := [PyVal.null],
      visibility := [PyVal.null] } 40 0 (by decide) (by decide) (by decide)
  exact ⟨r, h1, h2, h3, hvis (by decide)⟩
